import Mathlib

/-
  Verification of the moru-ai/maru session-orchestration core.

  Shallow embedding of:
  - the Session Log Poller and turn-completion logic
    (apps/server/src/services/agent-session.ts),
  - the active-turn registry discipline of sendMessage / interrupt,
  - the realtime broadcast layer (socket stream state),
  - the checkpoint/restore engine (checkpoint-service.ts),
  - the filesystem change watcher (moru-filesystem-watcher.ts).
-/

namespace Maru

/- ## Session log entries (agent-session.ts, pollFile lines 297-313)

One parsed line of the session JSONL file. The server only inspects
`isApiErrorMessage` and `message.content[0].text`; everything else is an
opaque payload. `errorText = some t` models a present, non-empty
`message.content[0].text`. -/

structure Entry where
  isApiErrorMessage : Bool
  errorText : Option String
  payload : String
deriving DecidableEq, Repr

/-- One raw line of the log file: blank (skipped by `if (!line?.trim()) continue`),
malformed (JSON.parse throws), or a well-formed entry. -/
inductive LogLine where
  | blank : LogLine
  | malformed : LogLine
  | entry : Entry → LogLine
deriving DecidableEq, Repr

/-- `entry.isApiErrorMessage === true && entry.message?.content?.[0]?.text`
(agent-session.ts line 303). -/
def hasApiErrorMarker (e : Entry) : Bool :=
  e.isApiErrorMessage && e.errorText.isSome

/-- Update of the local `apiError` variable for one processed entry
(agent-session.ts lines 303-306): the last marker seen wins. -/
def newApiErr (err : Option String) (e : Entry) : Option String :=
  if hasApiErrorMarker e then e.errorText else err

/-- The loop body of `pollFile` (agent-session.ts lines 297-313).
Arguments: remaining lines (starting at index `i`), loop index `i`, the
`fromLine` counter (incremented only for processed entries), the persisted
event list (each persisted event recorded with its log line index), and the
current `apiError`. A malformed line makes `JSON.parse` throw; the exception
is caught by the catch wrapping the whole loop (line 314), so the poll stops
there, returning the counter and database as accumulated so far. -/
def pollGo : List LogLine → ℕ → ℕ → List (ℕ × Entry) → Option String →
    ℕ × List (ℕ × Entry) × Option String
  | [], _, cnt, db, err => (cnt, db, err)
  | LogLine.blank :: rest, i, cnt, db, err => pollGo rest (i + 1) cnt db err
  | LogLine.malformed :: _, _, cnt, db, err => (cnt, db, err)
  | LogLine.entry e :: rest, i, cnt, db, err =>
      pollGo rest (i + 1) (cnt + 1) (db ++ [(i, e)]) (newApiErr err e)

/-- `pollFile(taskId, userId, sessionId, sandbox, fromLine)`
(agent-session.ts lines 283-317): read the whole file, slice the lines
beyond `fromLine`, process them. `db` is the persisted sessionEvent rows
for this (task, session); persistence and emission happen together for
each processed line, so the returned list is both. -/
def pollFile (lines : List LogLine) (fromLine : ℕ) (db : List (ℕ × Entry)) :
    ℕ × List (ℕ × Entry) × Option String :=
  pollGo (lines.drop fromLine) fromLine fromLine db none

/-- A log consisting solely of well-formed, non-blank lines. -/
def entryLines (es : List Entry) : List LogLine :=
  es.map LogLine.entry

/-- The persisted rows for the lines of `es`, positioned from index `i`:
the specification of what an exact poll of those lines should append. -/
def withPos : ℕ → List Entry → List (ℕ × Entry)
  | _, [] => []
  | i, e :: r => (i, e) :: withPos (i + 1) r

/-- Folding `newApiErr` over a list of entries: the apiError value after
processing them in order. -/
def lastMarker : Option String → List Entry → Option String
  | err, [] => err
  | err, e :: r => lastMarker (newApiErr err e) r

/- ## Chained polling (doPoll, agent-session.ts lines 122-143)

`doPoll` re-invokes `pollFile` with the `linesRead` returned by the
previous invocation, over a log file that only grows by appending, and
ORs each poll's `apiError` into the turn-level `hasApiError` flag. -/

/-- `b` is `a` with zero or more lines appended. -/
def LogExtends (a b : List Entry) : Prop :=
  b.take a.length = a

/-- A sequence of log snapshots each extending the previous one, the first
extending `cur`. -/
def ChainOK : List Entry → List (List Entry) → Prop
  | _, [] => True
  | cur, s :: rest => LogExtends cur s ∧ ChainOK s rest

/-- Chained polls as the supervisor performs them: each poll starts from the
`linesRead` returned by the previous one, over the next log snapshot;
`flag` accumulates `hasApiError` (agent-session.ts lines 126-129, 154-157). -/
def runPolls : List (List Entry) → ℕ → List (ℕ × Entry) → Bool →
    ℕ × List (ℕ × Entry) × Bool
  | [], cnt, db, flag => (cnt, db, flag)
  | s :: rest, cnt, db, flag =>
      let r := pollFile (entryLines s) cnt db
      runPolls rest r.1 r.2.1 (flag || r.2.2.isSome)

/- ## Turn completion (agent-session.ts lines 146-206) -/

inductive TaskStatus where
  | COMPLETED : TaskStatus
  | FAILED : TaskStatus
deriving DecidableEq, Repr

/-- What the supervisor emits when the turn ends. -/
inductive FinalEmit where
  | sessionComplete (timedOut : Bool) : FinalEmit
  | sessionError : FinalEmit
deriving DecidableEq, Repr

/-- The decision at the end of the `session_complete` handler
(agent-session.ts lines 160-164 and 197-202): a recorded api error
overrides the subprocess-reported ordinary completion. `timedOut` is
whether the inbound result carried the forced `timed_out` marker. -/
def finishTurn (hasApiError : Bool) (timedOut : Bool) : FinalEmit × TaskStatus :=
  if hasApiError then (FinalEmit.sessionError, TaskStatus.FAILED)
  else (FinalEmit.sessionComplete timedOut, TaskStatus.COMPLETED)

/- ## List helper lemmas -/

theorem take_len_append {α : Type} (a b : List α) : (a ++ b).take a.length = a := by
  induction a with
  | nil => rfl
  | cons x xs ih => simp [List.take, ih]

theorem drop_len_append {α : Type} (a b : List α) : (a ++ b).drop a.length = b := by
  induction a with
  | nil => rfl
  | cons x xs ih => simp [List.drop, ih]

theorem logExtends_iff {a b : List Entry} : LogExtends a b ↔ ∃ t, b = a ++ t := by
  constructor
  · intro h
    refine ⟨b.drop a.length, ?_⟩
    conv_lhs => rw [← List.take_append_drop a.length b]
    rw [h]
  · rintro ⟨t, rfl⟩
    exact take_len_append a t

theorem logExtends_refl (a : List Entry) : LogExtends a a :=
  logExtends_iff.mpr ⟨[], by simp⟩

theorem logExtends_trans {a b c : List Entry}
    (h1 : LogExtends a b) (h2 : LogExtends b c) : LogExtends a c := by
  rcases logExtends_iff.mp h1 with ⟨t, rfl⟩
  rcases logExtends_iff.mp h2 with ⟨u, rfl⟩
  exact logExtends_iff.mpr ⟨t ++ u, by simp⟩

theorem entryLines_drop : ∀ (es : List Entry) (n : ℕ),
    (entryLines es).drop n = entryLines (es.drop n) := by
  intro es
  induction es with
  | nil => intro n; simp [entryLines]
  | cons e r ih =>
      intro n
      cases n with
      | zero => rfl
      | succ m => exact ih m

theorem withPos_append (a b : List Entry) (i : ℕ) :
    withPos i (a ++ b) = withPos i a ++ withPos (i + a.length) b := by
  induction a generalizing i with
  | nil => simp [withPos]
  | cons x xs ih =>
      have h1 : (x :: xs) ++ b = x :: (xs ++ b) := rfl
      rw [h1]
      show (i, x) :: withPos (i + 1) (xs ++ b) =
        withPos i (x :: xs) ++ withPos (i + (x :: xs).length) b
      rw [ih (i + 1)]
      show (i, x) :: (withPos (i + 1) xs ++ withPos (i + 1 + xs.length) b) =
        (i, x) :: (withPos (i + 1) xs ++ withPos (i + (x :: xs).length) b)
      have h2 : i + 1 + xs.length = i + (x :: xs).length := by
        simp only [List.length_cons]
        omega
      rw [h2]

theorem withPos_mem_fst {es : List Entry} {i : ℕ} {p : ℕ × Entry}
    (h : p ∈ withPos i es) : i ≤ p.1 := by
  induction es generalizing i with
  | nil => simp [withPos] at h
  | cons e r ih =>
      simp only [withPos, List.mem_cons] at h
      rcases h with h | h
      · subst h; exact Nat.le_refl i
      · exact Nat.le_of_succ_le (ih h)

theorem withPos_pairwise (es : List Entry) (i : ℕ) :
    List.Pairwise (fun a b => a.1 < b.1) (withPos i es) := by
  induction es generalizing i with
  | nil => exact List.Pairwise.nil
  | cons e r ih =>
      refine List.Pairwise.cons ?_ (ih (i + 1))
      intro p hp
      exact Nat.lt_of_lt_of_le (Nat.lt_succ_self i) (withPos_mem_fst hp)

/- ## Poller lemmas -/

theorem pollGo_entries (es : List Entry) :
    ∀ (i cnt : ℕ) (db : List (ℕ × Entry)) (err : Option String),
      pollGo (entryLines es) i cnt db err =
        (cnt + es.length, db ++ withPos i es, lastMarker err es) := by
  induction es with
  | nil => intro i cnt db err; simp [entryLines, pollGo, withPos, lastMarker]
  | cons e r ih =>
      intro i cnt db err
      have hlen : cnt + 1 + r.length = cnt + (r.length + 1) := by omega
      simp only [entryLines, List.map_cons, pollGo, lastMarker, withPos, List.length_cons]
      rw [show (r.map LogLine.entry) = entryLines r from rfl,
        ih (i + 1) (cnt + 1) (db ++ [(i, e)]) (newApiErr err e), hlen]
      simp [List.append_assoc]

theorem hasApiErrorMarker_isSome {e : Entry} (h : hasApiErrorMarker e = true) :
    e.errorText.isSome = true := by
  simp only [hasApiErrorMarker, Bool.and_eq_true] at h
  exact h.2

theorem newApiErr_isSome (err : Option String) (e : Entry) :
    (newApiErr err e).isSome = (err.isSome || hasApiErrorMarker e) := by
  by_cases h : hasApiErrorMarker e = true
  · simp [newApiErr, h, hasApiErrorMarker_isSome h]
  · simp only [Bool.not_eq_true] at h
    simp [newApiErr, h]

theorem lastMarker_isSome (es : List Entry) :
    ∀ err : Option String,
      (lastMarker err es).isSome = (err.isSome || es.any hasApiErrorMarker) := by
  induction es with
  | nil => intro err; simp [lastMarker]
  | cons e r ih =>
      intro err
      simp only [lastMarker, List.any_cons, ih, newApiErr_isSome]
      rw [Bool.or_assoc]

/-- One exact poll over a log that extends the already-processed part:
this is what each `doPoll` invocation does when the agent has only
appended lines since the previous poll. -/
theorem pollFile_extend {cur s : List Entry} (h : LogExtends cur s) :
    pollFile (entryLines s) cur.length (withPos 0 cur) =
      (s.length, withPos 0 s, lastMarker none (s.drop cur.length)) := by
  rcases logExtends_iff.mp h with ⟨t, rfl⟩
  have hdrop : (entryLines (cur ++ t)).drop cur.length = entryLines t := by
    rw [entryLines_drop, drop_len_append]
  have hdrop2 : (cur ++ t).drop cur.length = t := drop_len_append cur t
  simp only [pollFile, hdrop, hdrop2, pollGo_entries]
  refine congrArg₂ _ ?_ (congrArg₂ _ ?_ rfl)
  · simp
  · rw [withPos_append]
    simp

theorem chainOK_extends : ∀ (rest : List (List Entry)) (s : List Entry),
    ChainOK s rest → LogExtends s (rest.getLastD s) := by
  intro rest
  induction rest with
  | nil => intro s _; exact logExtends_refl s
  | cons r rs ih =>
      intro s h
      rcases h with ⟨h1, h2⟩
      rw [List.getLastD_cons]
      exact logExtends_trans h1 (ih r h2)

/-- Main chained-polling invariant: starting from a fully-processed log
`cur` (counter at `cur.length`, database holding exactly `cur`'s lines),
running the chained polls over extending snapshots yields the final
snapshot's lines exactly, with the accumulated api-error flag covering
exactly the newly processed region. -/
theorem runPolls_chain : ∀ (snaps : List (List Entry)) (cur : List Entry) (flag : Bool),
    ChainOK cur snaps →
    runPolls snaps cur.length (withPos 0 cur) flag =
      ((snaps.getLastD cur).length, withPos 0 (snaps.getLastD cur),
       flag || ((snaps.getLastD cur).drop cur.length).any hasApiErrorMarker) := by
  intro snaps
  induction snaps with
  | nil =>
      intro cur flag _
      simp [runPolls, List.getLastD, List.drop_length]
  | cons s rest ih =>
      intro cur flag h
      rcases h with ⟨h1, h2⟩
      rw [List.getLastD_cons]
      have hpoll := pollFile_extend h1
      simp only [runPolls, hpoll]
      rw [ih s (flag || (lastMarker none (s.drop cur.length)).isSome) h2]
      refine congrArg₂ _ rfl (congrArg₂ _ rfl ?_)
      have hext : LogExtends s (rest.getLastD s) := chainOK_extends rest s h2
      rcases logExtends_iff.mp h1 with ⟨t, rfl⟩
      rcases logExtends_iff.mp hext with ⟨u, hu⟩
      rw [hu]
      have e1 : ((cur ++ t) ++ u).drop cur.length = t ++ u := by
        rw [List.append_assoc, drop_len_append]
      have e2 : ((cur ++ t) ++ u).drop (cur ++ t).length = u := drop_len_append _ _
      have e3 : (cur ++ t).drop cur.length = t := drop_len_append _ _
      rw [e1, e2, e3, lastMarker_isSome, List.any_append]
      simp [Bool.or_assoc]

/- ## Sample entries for concrete evaluations -/

def entryA : Entry := ⟨false, none, "alpha"⟩

def entryB : Entry := ⟨false, none, "beta"⟩

def errEntry : Entry := ⟨true, some "Billing error: credit balance too low", "api"⟩

/- ## Claim theorems: poller -/

/-- C2 (amended): when each poll resumes from the `linesRead` counter returned
by the previous poll and the session log only grows by appending well-formed,
non-blank lines — which is how `doPoll` chains `pollFile` invocations, including
after a reconnect restore — every log line is persisted and emitted exactly
once, in strictly increasing log-position order; the counter ends at the
log's length. (The claim's further assertion that re-polling an *overlapping*
line range is idempotent is refuted separately by the counterexample.) -/
theorem pollChain_exactly_once (snaps : List (List Entry)) (h : ChainOK [] snaps) :
    (runPolls snaps 0 [] false).2.1 = withPos 0 (snaps.getLastD []) ∧
    List.Pairwise (fun a b => a.1 < b.1) ((runPolls snaps 0 [] false).2.1) ∧
    (runPolls snaps 0 [] false).1 = (snaps.getLastD []).length := by
  have hh := runPolls_chain snaps [] false h
  simp only [List.length_nil, withPos] at hh
  refine ⟨by rw [hh], ?_, by rw [hh]⟩
  rw [hh]
  exact withPos_pairwise _ 0

/-- Witness for `pollChain_exactly_once` at a concrete two-snapshot chain. -/
theorem pollChain_exactly_once_w :
    (runPolls [[entryA], [entryA, entryB]] 0 [] false).2.1 =
      withPos 0 ([[entryA], [entryA, entryB]].getLastD []) ∧
    List.Pairwise (fun a b => a.1 < b.1)
      ((runPolls [[entryA], [entryA, entryB]] 0 [] false).2.1) ∧
    (runPolls [[entryA], [entryA, entryB]] 0 [] false).1 =
      ([[entryA], [entryA, entryB]].getLastD []).length :=
  pollChain_exactly_once [[entryA], [entryA, entryB]] ⟨rfl, rfl, trivial⟩

/-- C2 counterexample: invoking `pollFile` a second time over an overlapping
line range (here: the same single-line log, both polls starting at line 0)
persists and emits the same event twice — `prisma.sessionEvent.create` is
re-executed for the overlapped line, so persistence is not idempotent. -/
theorem pollFile_overlap_duplicates :
    (pollFile (entryLines [entryA]) 0
        (pollFile (entryLines [entryA]) 0 []).2.1).2.1 =
      [(0, entryA), (0, entryA)] ∧
    ((pollFile (entryLines [entryA]) 0
        (pollFile (entryLines [entryA]) 0 []).2.1).2.1).count (0, entryA) = 2 := by
  constructor
  · rfl
  · rfl

/-- C3: if any polled log line carries the embedded provider/billing error
marker (`isApiErrorMessage === true` with a present error text), the turn's
final outcome is a session error and the task status is FAILED, even though
the subprocess reported an ordinary `session_complete` (with any result
marker `timedOut`). -/
theorem pollChain_apiError_overrides (snaps : List (List Entry)) (timedOut : Bool)
    (h : ChainOK [] snaps)
    (hm : (snaps.getLastD []).any hasApiErrorMarker = true) :
    finishTurn (runPolls snaps 0 [] false).2.2 timedOut =
      (FinalEmit.sessionError, TaskStatus.FAILED) := by
  have hh := runPolls_chain snaps [] false h
  simp only [List.length_nil, withPos] at hh
  have hflag : (runPolls snaps 0 [] false).2.2 = true := by
    rw [hh]
    simp only [List.drop_zero, Bool.false_or]
    exact hm
  rw [hflag]
  rfl

/-- Witness for `pollChain_apiError_overrides`: a one-snapshot log holding a
billing-error line forces a FAILED outcome despite ordinary completion. -/
theorem pollChain_apiError_overrides_w :
    finishTurn (runPolls [[errEntry]] 0 [] false).2.2 false =
      (FinalEmit.sessionError, TaskStatus.FAILED) :=
  pollChain_apiError_overrides [[errEntry]] false ⟨rfl, trivial⟩ (by decide)

/-- C4: a line that fails to parse as JSON does NOT merely get skipped: the
`JSON.parse` exception is caught by the catch wrapping the whole loop, so the
poll stops there — the well-formed line following the malformed one is neither
persisted nor emitted and the `linesRead` counter does not advance (first
conjunct), although the same line alone polls fine (second conjunct). -/
theorem pollFile_malformed_aborts :
    pollFile [LogLine.malformed, LogLine.entry entryB] 0 [] = (0, [], none) ∧
    pollFile [LogLine.entry entryB] 0 [] = (1, [(0, entryB)], none) := by
  constructor
  · rfl
  · rfl

/- ## Supervisor turn timing (agent-session.ts lines 69-143)

Closure state of one `sendMessage` turn: the `stopped` flag, whether the
self-rescheduling poll timer is armed, the turn's start time, the
accumulated `hasApiError` flag, and the final outcome/status once the turn
ends. Times are wall-clock milliseconds. -/

inductive TurnOutcome where
  | completed (timedOut : Bool) : TurnOutcome
  | errored : TurnOutcome
deriving DecidableEq, Repr

structure SupState where
  sessionStarted : Bool
  stopped : Bool
  pollArmed : Bool
  startTime : ℕ
  hasApiError : Bool
  outcome : Option TurnOutcome
  status : Option TaskStatus
deriving DecidableEq, Repr

/-- `MAX_SESSION_TIMEOUT_MS = 1800000` (agent-session.ts line 76). -/
def MAX_SESSION_TIMEOUT_MS : ℕ := 1800000

/-- Poll interval of the self-rescheduling timer (agent-session.ts line 140). -/
def POLL_INTERVAL_MS : ℕ := 300

/-- The `session_complete` handler's final decision (agent-session.ts lines
146-206): stop polling, drain the log one last time (`finalErr` is whether
that final drain detected an api-error line), then emit session-error and
mark FAILED when an api error was recorded, else emit session-complete
(forwarding the result, whose `timed_out` marker is `timedOut`) and mark
COMPLETED. -/
def completeTurn (s : SupState) (timedOut finalErr : Bool) : SupState :=
  let hasErr := s.hasApiError || finalErr
  if hasErr then
    { s with stopped := true, pollArmed := false, hasApiError := hasErr,
             outcome := some TurnOutcome.errored, status := some TaskStatus.FAILED }
  else
    { s with stopped := true, pollArmed := false,
             outcome := some (TurnOutcome.completed timedOut),
             status := some TaskStatus.COMPLETED }

/-- One firing of the poll timer, `doPoll` (agent-session.ts lines 122-142):
after the poll itself (`pollErr` is whether this poll detected an api-error
line), check the absolute safety-net timeout; past it and not stopped, force
`session_complete` with the `timed_out: true` marker; otherwise re-arm the
single-shot timer iff not stopped. -/
def doPollTick (s : SupState) (now : ℕ) (pollErr finalErr : Bool) : SupState :=
  let s1 := if pollErr then { s with hasApiError := true } else s
  if MAX_SESSION_TIMEOUT_MS < now - s1.startTime ∧ s1.stopped = false then
    completeTurn s1 true finalErr
  else if s1.stopped = false then { s1 with pollArmed := true }
  else { s1 with pollArmed := false }

/-- Inbound control-protocol messages relevant to turn lifetime. -/
inductive AgentMsg where
  | sessionStarted : AgentMsg
  | sessionComplete (timedOut finalErr : Bool) : AgentMsg
  | sessionError : AgentMsg
deriving DecidableEq, Repr

/-- `handleMessage` on an inbound message (agent-session.ts lines 114-255):
`session_started` starts the polling loop (the first `doPoll` runs at once,
so the timer is armed); `session_complete` and `session_error` stop polling
and resolve the turn. -/
def processMsg (s : SupState) (m : AgentMsg) : SupState :=
  match m with
  | AgentMsg.sessionStarted => { s with sessionStarted := true, pollArmed := true }
  | AgentMsg.sessionComplete t fe => completeTurn s t fe
  | AgentMsg.sessionError =>
      { s with stopped := true, pollArmed := false,
               outcome := some TurnOutcome.errored, status := some TaskStatus.FAILED }

def processMsgs (s : SupState) (ms : List AgentMsg) : SupState :=
  ms.foldl processMsg s

/-- Turn state right after `sendMessage` spawned the agent (start time `t0`):
no session yet, no poll timer armed, turn in progress. -/
def initSup (t0 : ℕ) : SupState :=
  ⟨false, false, false, t0, false, none, none⟩

/- ## Claim theorems: timeout (C5) -/

/-- C5 counterexample: when the agent subprocess reports nothing at all (it
never sends `session_started`), the turn has no outcome and — decisively —
no poll timer is ever armed, so `doPollTick`, the only transition that forces
the timed-out completion, can never fire: the turn stays silently in progress
arbitrarily far past the absolute timeout, refuting "regardless of what the
agent subprocess does or fails to report". -/
theorem silentAgent_no_timeout :
    (processMsgs (initSup 0) []).outcome = none ∧
    (processMsgs (initSup 0) []).pollArmed = false ∧
    (processMsgs (initSup 0) []).stopped = false := by
  refine ⟨rfl, rfl, rfl⟩

/-- C5 (amended): once the agent has reported `session_started` (so the poll
loop is armed), any poll tick firing more than `MAX_SESSION_TIMEOUT_MS` after
the turn's start, with the turn not already stopped, forces the turn into
completion: polling stops, a status is set, and — when no provider error was
recorded — the outcome is an ordinary completion carrying the `timed_out`
marker with status COMPLETED. Before `session_started` no poll tick is ever
scheduled, so the safety net does not cover a subprocess that never reports
(shown separately by the counterexample). -/
theorem pollTick_timeout_forces_completion (s : SupState) (now : ℕ)
    (pollErr finalErr : Bool)
    (_harm : s.pollArmed = true) (hstop : s.stopped = false)
    (ht : MAX_SESSION_TIMEOUT_MS < now - s.startTime) :
    (doPollTick s now pollErr finalErr).stopped = true ∧
    (doPollTick s now pollErr finalErr).pollArmed = false ∧
    (doPollTick s now pollErr finalErr).status.isSome = true ∧
    (s.hasApiError = false → pollErr = false → finalErr = false →
      (doPollTick s now pollErr finalErr).outcome =
          some (TurnOutcome.completed true) ∧
      (doPollTick s now pollErr finalErr).status = some TaskStatus.COMPLETED) := by
  cases pollErr with
  | true => simp [doPollTick, completeTurn, ht, hstop]
  | false =>
      cases hae : s.hasApiError with
      | true => simp [doPollTick, completeTurn, ht, hstop, hae]
      | false =>
          cases finalErr with
          | true => simp [doPollTick, completeTurn, ht, hstop, hae]
          | false => simp [doPollTick, completeTurn, ht, hstop, hae]

/-- Witness for `pollTick_timeout_forces_completion`: a turn started at time 0
with an armed poll loop, ticked at 1800001 ms with no api error anywhere. -/
theorem pollTick_timeout_forces_completion_w :
    (doPollTick ⟨true, false, true, 0, false, none, none⟩ 1800001 false false).outcome =
        some (TurnOutcome.completed true) ∧
    (doPollTick ⟨true, false, true, 0, false, none, none⟩ 1800001 false false).stopped = true :=
  ⟨((pollTick_timeout_forces_completion ⟨true, false, true, 0, false, none, none⟩
      1800001 false false rfl rfl (by decide)).2.2.2 rfl rfl rfl).1,
   (pollTick_timeout_forces_completion ⟨true, false, true, 0, false, none, none⟩
      1800001 false false rfl rfl (by decide)).1⟩

/- ## Active-turn registry (agent-session.ts lines 8, 26-28, 257-273)

The registry check and registration inside `sendMessage` are separated by
awaited sandbox creation/restore: each call runs the atomic segments

  entry  — line 26: `if (active.has(taskId)) throw` (rejected) else proceed;
  setup  — lines 31-255: the awaited sandbox/restore/spawn work, ending at
           line 257: `active.set(taskId, ...)` and the turn starts running;
  running — lines 266-270: awaiting completion;
  finished — line 272: `finally { active.delete(taskId) }`.

Two concurrent calls for the same task interleave these segments on the
event loop; `RegSys` tracks the registry (for that task) and both calls. -/

inductive CallPhase where
  | entry : CallPhase
  | setup : CallPhase
  | running : CallPhase
  | finished : CallPhase
  | rejected : CallPhase
deriving DecidableEq, Repr

structure RegSys where
  activeReg : Bool
  pA : CallPhase
  pB : CallPhase
deriving DecidableEq, Repr

/-- Advance one call by one atomic segment against the registry. -/
def stepCall : Bool → CallPhase → Bool × CallPhase
  | act, CallPhase.entry =>
      if act then (act, CallPhase.rejected) else (act, CallPhase.setup)
  | _, CallPhase.setup => (true, CallPhase.running)
  | _, CallPhase.running => (false, CallPhase.finished)
  | act, p => (act, p)

/-- Scheduler step: `false` advances call A, `true` advances call B. -/
def stepSys (s : RegSys) (who : Bool) : RegSys :=
  if who then
    let r := stepCall s.activeReg s.pB
    { s with activeReg := r.1, pB := r.2 }
  else
    let r := stepCall s.activeReg s.pA
    { s with activeReg := r.1, pA := r.2 }

def runSched (s : RegSys) (sched : List Bool) : RegSys :=
  sched.foldl stepSys s

def initReg : RegSys :=
  ⟨false, CallPhase.entry, CallPhase.entry⟩

/-- C1: under the interleaving in which both concurrent `sendMessage` calls
for the same task perform the `active.has` check before either reaches
`active.set` (schedule A-check, B-check, A-register, B-register — i.e. call B
arrives while call A is still awaiting sandbox creation), BOTH calls pass the
check, register, and run turns concurrently; neither is rejected. This refutes
"exactly one succeeds in starting a turn and every other call is rejected":
the check and the registration are not indivisible. -/
theorem sendMessage_race_two_active :
    (runSched initReg [false, true, false, true]).pA = CallPhase.running ∧
    (runSched initReg [false, true, false, true]).pB = CallPhase.running := by
  refine ⟨rfl, rfl⟩

/- ## interrupt (agent-session.ts lines 14-18)

`interrupt` consults only the active-turn registry entry (sandbox + pid); it
has no knowledge of whether a session ever started within the turn. -/

structure ActiveEntry where
  pid : ℕ
deriving DecidableEq, Repr

inductive ControlMsg where
  | sessionInterrupt : ControlMsg
deriving DecidableEq, Repr

/-- The per-task view `interrupt` acts on: the registry entry for the task
(`active.get(taskId)`), alongside whether the turn's session ever started
(tracked only in the turn's closure, not in the registry). -/
structure TurnCtx where
  registered : Option ActiveEntry
  sessionStarted : Bool
deriving DecidableEq, Repr

/-- `interrupt(taskId)`: no registry entry — return without sending; entry
present — `sendStdin(pid, session_interrupt)`. -/
def interrupt (c : TurnCtx) : List (ℕ × ControlMsg) :=
  match c.registered with
  | none => []
  | some a => [(a.pid, ControlMsg.sessionInterrupt)]

/- ## Claim theorems: interrupt (C8) -/

/-- C8 counterexample: a turn that is registered in the active registry but
whose session never started (`sessionStarted = false` — the window between
`active.set` and the agent's `session_started`, which covers a turn whose
session never starts at all). `interrupt` DOES send the interrupt control
message to the agent's stdin, refuting "when interrupt is called during a
turn whose session never started, no control message is sent". -/
theorem interrupt_sends_without_session :
    interrupt ⟨some ⟨5⟩, false⟩ = [(5, ControlMsg.sessionInterrupt)] := by
  rfl

/-- C8 (amended): `interrupt(task)` sends the interrupt control message iff
the task has a registered active turn, regardless of whether a session ever
started within it (its behaviour is independent of `sessionStarted`); when
the task has no registered turn it is a no-op and raises no error. -/
theorem interrupt_spec (c : TurnCtx) :
    (c.registered = none → interrupt c = []) ∧
    (∀ a : ActiveEntry, c.registered = some a →
      interrupt c = [(a.pid, ControlMsg.sessionInterrupt)]) ∧
    (∀ b : Bool, interrupt ⟨c.registered, b⟩ = interrupt c) := by
  refine ⟨?_, ?_, ?_⟩
  · intro h
    simp [interrupt, h]
  · intro a h
    simp [interrupt, h]
  · intro b
    rfl

/-- Witness for `interrupt_spec` on a task with no active turn. -/
theorem interrupt_spec_w : interrupt ⟨none, false⟩ = [] :=
  (interrupt_spec ⟨none, false⟩).1 rfl

/- ## Realtime broadcast layer (socket.ts, src/unnamed/part_009)

Per-task stream state (`taskStreamStates`), room broadcast (`emitToTask`:
`io.to(room).emit` delivers to every current member), and the handlers
relevant to buffer replay. -/

structure StreamChunk where
  type : String
  payload : String
deriving DecidableEq, Repr

structure TaskStreamState where
  chunks : List StreamChunk
  isStreaming : Bool
deriving DecidableEq, Repr

/-- Messages the server sends over the socket (the fields the core inspects). -/
inductive SockMsg where
  | streamChunk (c : StreamChunk) : SockMsg
  | streamComplete : SockMsg
  | streamState (chunks : List StreamChunk) (isStreaming : Bool) (totalChunks : ℕ) : SockMsg
  | historyComplete (totalLength : ℕ) : SockMsg
  | messageError : SockMsg
deriving DecidableEq, Repr

/-- `emitToTask` (part_009 lines 67-74): broadcast to every current member of
the task's room. Viewers are numbered. -/
def emitToTask (room : List ℕ) (m : SockMsg) : List (ℕ × SockMsg) :=
  room.map (fun v => (v, m))

/-- `endStream` (part_009 lines 472-479): clear the streaming flag and
broadcast `stream-complete`. The chunk buffer is NOT touched. -/
def endStream (st : TaskStreamState) (room : List ℕ) :
    TaskStreamState × List (ℕ × SockMsg) :=
  ({ st with isStreaming := false }, emitToTask room SockMsg.streamComplete)

/-- `emitStreamChunk` (part_009 lines 529-544): buffer the chunk unless its
type is "complete" or "error", broadcast it to the room, and on a
"complete" chunk additionally run `endStream`. -/
def emitStreamChunk (st : TaskStreamState) (room : List ℕ) (c : StreamChunk) :
    TaskStreamState × List (ℕ × SockMsg) :=
  let st1 := if c.type ≠ "complete" ∧ c.type ≠ "error"
             then { st with chunks := st.chunks ++ [c] } else st
  let out1 := emitToTask room (SockMsg.streamChunk c)
  if c.type = "complete" then
    let r := endStream st1 room
    (r.1, out1 ++ r.2)
  else (st1, out1)

/-- The `join-task` handler (part_009 lines 159-183): verify access (on
failure emit `message-error` to the joining socket), join the room, and
record the task on the connection state. It consults no stream state and
sends no replay. Returns (joined?, new connection taskId, messages emitted
to the joining socket). -/
def joinTaskHandler (hasAccess : Bool) (connTaskId0 : Option String) (tid : String) :
    Bool × Option String × List SockMsg :=
  if hasAccess then (true, some tid, [])
  else (false, connTaskId0, [SockMsg.messageError])

/-- The connection-time replay (part_009 lines 126-157): when the (restored)
connection state references a task whose stream state is live and non-empty,
send the full buffer with `isStreaming: true`; otherwise send the empty
state. `lookup` is `taskStreamStates.get(state.taskId)`. -/
def connectionReplay (connTaskId : Option String)
    (lookup : Option TaskStreamState) : List SockMsg :=
  match connTaskId with
  | some _ =>
      match lookup with
      | some ss =>
          if ss.isStreaming ∧ 0 < ss.chunks.length
          then [SockMsg.streamState ss.chunks true ss.chunks.length]
          else [SockMsg.streamState [] false 0]
      | none => [SockMsg.streamState [] false 0]
  | none => [SockMsg.streamState [] false 0]

/-- The `request-history` handler (part_009 lines 397-433): if the task has a
non-empty chunk buffer, send it all with the current streaming flag, then
send `history-complete`. -/
def requestHistory (lookup : Option TaskStreamState) : List SockMsg :=
  (match lookup with
   | some ss =>
       if 0 < ss.chunks.length
       then [SockMsg.streamState ss.chunks ss.isStreaming ss.chunks.length]
       else []
   | none => []) ++
  [SockMsg.historyComplete
    (match lookup with | some ss => ss.chunks.length | none => 0)]

/- ## Claim theorems: broadcast layer (C6, C7) -/

def chunkHello : StreamChunk := ⟨"content", "hello"⟩

def chunkDone : StreamChunk := ⟨"complete", ""⟩

def chunkErr : StreamChunk := ⟨"error", "boom"⟩

/-- C6 counterexample: publishing a terminal event does NOT clear the task's
stream buffer. A "complete" chunk only clears the streaming flag (the buffer
still holds its chunk), and an "error" chunk changes neither the buffer nor
the flag. -/
theorem emitStreamChunk_terminal_keeps_buffer :
    (emitStreamChunk ⟨[chunkHello], true⟩ [1] chunkDone).1 =
      ⟨[chunkHello], false⟩ ∧
    (emitStreamChunk ⟨[chunkHello], true⟩ [1] chunkErr).1 =
      ⟨[chunkHello], true⟩ := by
  constructor
  · rfl
  · rfl

/-- C6 (amended): `emitStreamChunk` delivers the chunk to every current
member of the task's room, and appends it to the task's stream buffer unless
it is a terminal ("complete"/"error") chunk. A "complete" chunk additionally
ends the stream — the streaming flag is cleared and `stream-complete` is
broadcast — but the buffer contents are retained, not cleared (they are reset
only when the next stream starts or the task's state is cleaned up); an
"error" chunk is delivered only, leaving buffer and flag unchanged. -/
theorem emitStreamChunk_spec (st : TaskStreamState) (room : List ℕ)
    (c : StreamChunk) (v : ℕ) (hv : v ∈ room) :
    ((v, SockMsg.streamChunk c) ∈ (emitStreamChunk st room c).2) ∧
    ((emitStreamChunk st room c).1.chunks =
      if c.type = "complete" ∨ c.type = "error" then st.chunks
      else st.chunks ++ [c]) ∧
    ((emitStreamChunk st room c).1.isStreaming =
      if c.type = "complete" then false else st.isStreaming) ∧
    (c.type = "complete" →
      (v, SockMsg.streamComplete) ∈ (emitStreamChunk st room c).2) := by
  by_cases hc : c.type = "complete"
  · refine ⟨?_, ?_, ?_, ?_⟩
    · simp [emitStreamChunk, hc, emitToTask, endStream, hv]
    · simp [emitStreamChunk, endStream, hc]
    · simp [emitStreamChunk, endStream, hc]
    · intro _
      simp [emitStreamChunk, hc, emitToTask, endStream, hv]
  · by_cases he : c.type = "error"
    · refine ⟨?_, ?_, ?_, ?_⟩
      · simp [emitStreamChunk, hc, he, emitToTask, hv]
      · simp [emitStreamChunk, endStream, hc, he]
      · simp [emitStreamChunk, endStream, hc, he]
      · intro hcontr
        exact absurd hcontr hc
    · refine ⟨?_, ?_, ?_, ?_⟩
      · simp [emitStreamChunk, hc, he, emitToTask, hv]
      · simp [emitStreamChunk, endStream, hc, he]
      · simp [emitStreamChunk, endStream, hc, he]
      · intro hcontr
        exact absurd hcontr hc

/-- Witness for `emitStreamChunk_spec` with a "complete" chunk sent to a
one-viewer room over a non-empty buffer. -/
theorem emitStreamChunk_spec_w :
    ((1, SockMsg.streamChunk chunkDone) ∈
      (emitStreamChunk ⟨[chunkHello], true⟩ [1] chunkDone).2) ∧
    ((1, SockMsg.streamComplete) ∈
      (emitStreamChunk ⟨[chunkHello], true⟩ [1] chunkDone).2) :=
  ⟨(emitStreamChunk_spec ⟨[chunkHello], true⟩ [1] chunkDone 1 (by decide)).1,
   (emitStreamChunk_spec ⟨[chunkHello], true⟩ [1] chunkDone 1 (by decide)).2.2.2 rfl⟩

/-- C7 counterexample: a viewer joining a task's room mid-turn via the
`join-task` handler is sent nothing at all (no stream buffer, no streaming
flag) — the handler only joins the room and records the task id; it never
consults the task's stream state even while a stream is live. This refutes
"a viewer that joins a task's room mid-turn is sent the full current stream
buffer plus the streaming flag". -/
theorem joinTask_sends_no_replay :
    joinTaskHandler true none "t1" = (true, some "t1", []) := by
  rfl

/-- C7 (amended): the join-task operation itself sends no stream state — a
successful join emits nothing and only records membership and the task id.
The buffer replay instead happens (a) at connection time, when the restored
connection state already references the task: a live, non-empty stream is
replayed in full with `isStreaming: true`; and (b) on an explicit
`request-history`, which sends every buffered chunk with the current
streaming flag. A viewer that merely joins mid-turn without requesting
history observes only events broadcast after its join. -/
theorem streamReplay_spec (prev : Option String) (tid : String)
    (ss : TaskStreamState) (hs : ss.isStreaming = true)
    (hn : 0 < ss.chunks.length) :
    (joinTaskHandler true prev tid = (true, some tid, [])) ∧
    (connectionReplay (some tid) (some ss) =
      [SockMsg.streamState ss.chunks true ss.chunks.length]) ∧
    (requestHistory (some ss) =
      [SockMsg.streamState ss.chunks ss.isStreaming ss.chunks.length,
       SockMsg.historyComplete ss.chunks.length]) := by
  refine ⟨rfl, ?_, ?_⟩
  · simp [connectionReplay, hs, hn]
  · simp [requestHistory, hn]

/-- Witness for `streamReplay_spec` on a live one-chunk stream. -/
theorem streamReplay_spec_w :
    (joinTaskHandler true none "t1" = (true, some "t1", [])) ∧
    (connectionReplay (some "t1") (some ⟨[chunkHello], true⟩) =
      [SockMsg.streamState [chunkHello] true 1]) ∧
    (requestHistory (some ⟨[chunkHello], true⟩) =
      [SockMsg.streamState [chunkHello] true 1,
       SockMsg.historyComplete 1]) :=
  streamReplay_spec none "t1" ⟨[chunkHello], true⟩ rfl (by decide)

/- ## Checkpoint/Restore engine (checkpoint-service.ts)

Database rows the engine touches: `todo` rows (delete-all + recreate per
task inside one transaction) and `chatMessage` rows (whose metadata may hold
an immutable checkpoint, i.e. a todo snapshot). Timestamps are numbered. -/

structure Todo where
  id : ℕ
  content : String
  status : String
  sequence : ℕ
  taskId : String
  createdAt : ℕ
  updatedAt : ℕ
deriving DecidableEq, Repr

inductive Role where
  | user : Role
  | assistant : Role
deriving DecidableEq, Repr

structure ChatMessage where
  id : String
  taskId : String
  role : Role
  sequence : ℕ
  checkpoint : Option (List Todo)
deriving DecidableEq, Repr

structure Db where
  todos : List Todo
  messages : List ChatMessage
deriving DecidableEq, Repr

/-- `findCheckpointMessage` (checkpoint-service.ts lines 337-371): look up the
target message by id; among this task's ASSISTANT messages with a checkpoint
and a sequence strictly below the target's, take the one with the greatest
sequence (`orderBy: sequence desc`, first row). -/
def findCheckpointMessage (db : Db) (taskId targetMessageId : String) :
    Option ChatMessage :=
  match db.messages.find? (fun m => m.id == targetMessageId) with
  | none => none
  | some tgt =>
      let cands := db.messages.filter (fun m =>
        m.taskId == taskId &&
        (match m.role with | Role.assistant => true | Role.user => false) &&
        decide (m.sequence < tgt.sequence) && m.checkpoint.isSome)
      cands.foldl (fun acc m =>
        match acc with
        | none => some m
        | some b => if b.sequence < m.sequence then some m else acc) none

/-- `restoreTodoState` (checkpoint-service.ts lines 149-196): inside one
transaction, delete every todo of the task, then recreate the snapshot's
rows (forcing the task association and stamping `updatedAt := now`). -/
def restoreTodoState (db : Db) (taskId : String) (snapshot : List Todo)
    (now : ℕ) : Db :=
  { db with todos :=
      db.todos.filter (fun t => !(t.taskId == taskId)) ++
      snapshot.map (fun t => { t with taskId := taskId, updatedAt := now }) }

/-- `restoreCheckpoint` (checkpoint-service.ts lines 76-134): find the latest
checkpoint strictly before the target; with none (or a checkpoint-less hit),
restore the initial (empty) snapshot (`restoreToInitialState`, lines
306-332); messages are never modified. -/
def restoreCheckpoint (db : Db) (taskId targetMessageId : String) (now : ℕ) : Db :=
  match findCheckpointMessage db taskId targetMessageId with
  | some m =>
      match m.checkpoint with
      | some snap => restoreTodoState db taskId snap now
      | none => restoreTodoState db taskId [] now
  | none => restoreTodoState db taskId [] now

/-- `getTodoSnapshot` (checkpoint-service.ts lines 139-144): the task's todo
rows. -/
def getTodoSnapshot (db : Db) (taskId : String) : List Todo :=
  db.todos.filter (fun t => t.taskId == taskId)

/-- The snapshot a restore targeting `targetMessageId` must produce: the
todo snapshot of the latest checkpoint strictly before the target, or the
empty snapshot when none exists. -/
def expectedSnapshot (db : Db) (taskId targetMessageId : String) : List Todo :=
  match findCheckpointMessage db taskId targetMessageId with
  | some m => m.checkpoint.getD []
  | none => []

/-- The spec's Todo Snapshot view of a todo row: its (content, status) pair
(together with identity and position). `updatedAt` is re-stamped on every
restore and is not part of the snapshot. -/
def todoKey (t : Todo) : ℕ × String × String × ℕ :=
  (t.id, t.content, t.status, t.sequence)

/- ## Checkpoint lemmas -/

theorem restoreTodoState_messages (db : Db) (taskId : String)
    (snapshot : List Todo) (now : ℕ) :
    (restoreTodoState db taskId snapshot now).messages = db.messages := rfl

theorem restoreCheckpoint_messages (db : Db) (taskId target : String) (now : ℕ) :
    (restoreCheckpoint db taskId target now).messages = db.messages := by
  unfold restoreCheckpoint
  cases findCheckpointMessage db taskId target with
  | none => rfl
  | some m =>
      dsimp only
      cases m.checkpoint with
      | none => rfl
      | some snap => rfl

theorem findCheckpointMessage_restore (db : Db) (taskId target tk2 : String)
    (snapshot : List Todo) (now : ℕ) :
    findCheckpointMessage (restoreTodoState db tk2 snapshot now) taskId target =
      findCheckpointMessage db taskId target := rfl

/-- Reading back a task's todos right after a wholesale replace yields
exactly the recreated snapshot rows. -/
theorem getTodoSnapshot_restoreTodoState (db : Db) (taskId : String)
    (snapshot : List Todo) (now : ℕ) :
    getTodoSnapshot (restoreTodoState db taskId snapshot now) taskId =
      snapshot.map (fun t => { t with taskId := taskId, updatedAt := now }) := by
  unfold getTodoSnapshot restoreTodoState
  rw [List.filter_append]
  have h1 : (db.todos.filter (fun t => !(t.taskId == taskId))).filter
      (fun t => t.taskId == taskId) = [] := by
    induction db.todos with
    | nil => rfl
    | cons t r ih =>
        by_cases h : t.taskId = taskId <;> simp [List.filter_cons, h, ih]
  have h2 : (snapshot.map (fun t => { t with taskId := taskId, updatedAt := now })).filter
      (fun t => t.taskId == taskId) =
      snapshot.map (fun t => { t with taskId := taskId, updatedAt := now }) := by
    induction snapshot with
    | nil => rfl
    | cons t r ih => simp [List.filter_cons, ih]
  rw [h1, h2]
  rfl

/-- The re-stamped rows coincide with the snapshot on everything but
`taskId`/`updatedAt`. -/
theorem todoKey_restamp (snapshot : List Todo) (taskId : String) (now : ℕ) :
    (snapshot.map (fun t => { t with taskId := taskId, updatedAt := now })).map todoKey =
      snapshot.map todoKey := by
  induction snapshot with
  | nil => rfl
  | cons t r ih => simp [todoKey, ih]

theorem restoreCheckpoint_snapshot (db : Db) (taskId target : String) (now : ℕ) :
    (getTodoSnapshot (restoreCheckpoint db taskId target now) taskId).map todoKey =
      (expectedSnapshot db taskId target).map todoKey := by
  unfold restoreCheckpoint expectedSnapshot
  cases hf : findCheckpointMessage db taskId target with
  | none =>
      dsimp only
      rw [getTodoSnapshot_restoreTodoState, todoKey_restamp]
  | some m =>
      dsimp only
      cases hc : m.checkpoint with
      | none =>
          dsimp only
          rw [getTodoSnapshot_restoreTodoState, todoKey_restamp]
          simp
      | some snap =>
          dsimp only
          rw [getTodoSnapshot_restoreTodoState, todoKey_restamp]
          simp

/- ## Claim theorem: checkpoint restore idempotence (C9) -/

/-- C9: checkpoint restore is idempotent. Each restore wholesale-replaces the
task's todo set inside one transaction with the snapshot of the latest
checkpoint strictly before the target (or the empty snapshot when none
exists): the first restore's resulting Todo Snapshot equals that expected
snapshot, and restoring again to the same target yields the same Todo
Snapshot (rows identical up to the re-stamped `updatedAt`). -/
theorem restoreCheckpoint_idempotent (db : Db) (taskId target : String)
    (n1 n2 : ℕ) :
    ((getTodoSnapshot (restoreCheckpoint db taskId target n1) taskId).map todoKey =
      (expectedSnapshot db taskId target).map todoKey) ∧
    ((getTodoSnapshot
        (restoreCheckpoint (restoreCheckpoint db taskId target n1) taskId target n2)
        taskId).map todoKey =
      (getTodoSnapshot (restoreCheckpoint db taskId target n1) taskId).map todoKey) := by
  have hsame : expectedSnapshot (restoreCheckpoint db taskId target n1) taskId target =
      expectedSnapshot db taskId target := by
    unfold expectedSnapshot
    have hfm : findCheckpointMessage (restoreCheckpoint db taskId target n1) taskId target =
        findCheckpointMessage db taskId target := by
      unfold restoreCheckpoint
      cases hf : findCheckpointMessage db taskId target with
      | none =>
          dsimp only
          rw [findCheckpointMessage_restore, hf]
      | some m =>
          dsimp only
          cases m.checkpoint with
          | none =>
              dsimp only
              rw [findCheckpointMessage_restore, hf]
          | some snap =>
              dsimp only
              rw [findCheckpointMessage_restore, hf]
    rw [hfm]
  refine ⟨restoreCheckpoint_snapshot db taskId target n1, ?_⟩
  rw [restoreCheckpoint_snapshot (restoreCheckpoint db taskId target n1) taskId target n2,
    hsame, restoreCheckpoint_snapshot db taskId target n1]

/- ## Filesystem change watcher (moru-filesystem-watcher.ts, src/unnamed/part_011)

State of one `MoruFilesystemWatcher`: the per-path debounce buffer
(`changeBuffer`, a map path → classified event, modelled as an assoc list
with replace-on-set), whether a flush timer is pending, and the pause flag.
The ignore patterns are abstracted as a predicate `ign` on paths. -/

structure RawEvent where
  etype : String
  name : String
deriving DecidableEq, Repr

structure FsChangeEvent where
  operation : String
  filePath : String
  timestamp : ℕ
  source : String
  isDirectory : Bool
deriving DecidableEq, Repr

/-- `mapEventType` (part_011 lines 135-157). -/
def mapEventType (etype : String) : String × Bool :=
  if etype = "CREATE" then ("file-created", false)
  else if etype = "WRITE" then ("file-modified", false)
  else if etype = "REMOVE" then ("file-deleted", false)
  else if etype = "RENAME" then ("file-created", false)
  else if etype = "CHMOD" then ("file-modified", false)
  else ("file-modified", false)

/-- The classified change event built in `handleFileChange`
(part_011 lines 104-113). -/
def mkChange (e : RawEvent) (now : ℕ) : FsChangeEvent :=
  ⟨(mapEventType e.etype).1, e.name, now, "moru", (mapEventType e.etype).2⟩

structure WatcherState where
  changeBuffer : List (String × FsChangeEvent)
  flushScheduled : Bool
  isPaused : Bool
deriving DecidableEq, Repr

/-- `Map.set` semantics on the debounce buffer: replace the entry for the
path if present, else append. -/
def bufSet : List (String × FsChangeEvent) → String → FsChangeEvent →
    List (String × FsChangeEvent)
  | [], k, v => [(k, v)]
  | (k0, v0) :: r, k, v =>
      if k0 = k then (k, v) :: r else (k0, v0) :: bufSet r k v

/-- `handleFileChange` (part_011 lines 90-130): drop when paused, drop
ignored paths, else set the classified event in the buffer and make sure a
flush is scheduled. -/
def handleFileChange (ign : String → Bool) (s : WatcherState) (e : RawEvent)
    (now : ℕ) : WatcherState :=
  if s.isPaused then s
  else if ign e.name then s
  else { s with changeBuffer := bufSet s.changeBuffer e.name (mkChange e now),
                flushScheduled := true }

/-- `flushChanges` (part_011 lines 181-210): nothing buffered — just drop the
timer; paused — clear the buffer without emitting; otherwise emit every
buffered change and clear buffer and timer. -/
def flushChanges (s : WatcherState) : WatcherState × List FsChangeEvent :=
  if s.changeBuffer.length = 0 then ({ s with flushScheduled := false }, [])
  else if s.isPaused then
    ({ s with changeBuffer := [], flushScheduled := false }, [])
  else
    ({ s with changeBuffer := [], flushScheduled := false },
     s.changeBuffer.map Prod.snd)

/-- `pause` (part_011 lines 242-256): set the flag, cancel any pending flush
timer and clear the buffer. -/
def pause (s : WatcherState) : WatcherState :=
  if s.isPaused then s
  else { s with isPaused := true, flushScheduled := false, changeBuffer := [] }

/-- `resume` (part_011 lines 261-269): clear the flag and clear the buffer
again. -/
def resume (s : WatcherState) : WatcherState :=
  if s.isPaused then { s with isPaused := false, changeBuffer := [] } else s

/-- The events that can reach the watcher: a raw filesystem event (classified
at wall-clock `now`), the debounce timer firing, and pause/resume calls. -/
inductive WatchOp where
  | raw (e : RawEvent) (now : ℕ) : WatchOp
  | flushFire : WatchOp
  | pauseOp : WatchOp
  | resumeOp : WatchOp
deriving DecidableEq, Repr

def applyOp (ign : String → Bool) (s : WatcherState) :
    WatchOp → WatcherState × List FsChangeEvent
  | WatchOp.raw e now => (handleFileChange ign s e now, [])
  | WatchOp.flushFire => flushChanges s
  | WatchOp.pauseOp => (pause s, [])
  | WatchOp.resumeOp => (resume s, [])

def runOps (ign : String → Bool) (s : WatcherState) :
    List WatchOp → WatcherState × List FsChangeEvent
  | [] => (s, [])
  | op :: rest =>
      let r1 := applyOp ign s op
      let r2 := runOps ign r1.1 rest
      (r2.1, r1.2 ++ r2.2)

/- ## Watcher lemmas -/

theorem runOps_paused_silent (ign : String → Bool) :
    ∀ (ops : List WatchOp) (s : WatcherState),
      (∀ o ∈ ops, o ≠ WatchOp.resumeOp) →
      s.isPaused = true → s.changeBuffer = [] →
      (runOps ign s ops).2 = [] ∧
      (runOps ign s ops).1.isPaused = true ∧
      (runOps ign s ops).1.changeBuffer = [] := by
  intro ops
  induction ops with
  | nil => intro s _ hp hb; exact ⟨rfl, hp, hb⟩
  | cons op rest ih =>
      intro s hno hp hb
      have hno2 : ∀ o ∈ rest, o ≠ WatchOp.resumeOp :=
        fun o ho => hno o (List.mem_cons_of_mem _ ho)
      cases op with
      | raw e now =>
          have h1 : handleFileChange ign s e now = s := by
            simp [handleFileChange, hp]
          simp only [runOps, applyOp, h1]
          have hrec := ih s hno2 hp hb
          simpa using hrec
      | flushFire =>
          have h1 : flushChanges s = ({ s with flushScheduled := false }, []) := by
            simp [flushChanges, hb]
          simp only [runOps, applyOp, h1]
          have hrec := ih { s with flushScheduled := false } hno2 (by simpa using hp)
            (by simpa using hb)
          simpa using hrec
      | pauseOp =>
          have h1 : pause s = s := by simp [pause, hp]
          simp only [runOps, applyOp, h1]
          have hrec := ih s hno2 hp hb
          simpa using hrec
      | resumeOp =>
          exact absurd rfl (hno WatchOp.resumeOp (List.mem_cons_self _ _))

theorem bufSet_mem : ∀ (buf : List (String × FsChangeEvent)) (k : String)
    (v : FsChangeEvent) (p : String × FsChangeEvent),
    p ∈ bufSet buf k v → p ∈ buf ∨ p = (k, v) := by
  intro buf
  induction buf with
  | nil =>
      intro k v p hp
      simp only [bufSet, List.mem_singleton] at hp
      exact Or.inr hp
  | cons kv r ih =>
      intro k v p hp
      rcases kv with ⟨k0, v0⟩
      simp only [bufSet] at hp
      by_cases h : k0 = k
      · rw [if_pos h] at hp
        rcases List.mem_cons.mp hp with h1 | h1
        · exact Or.inr h1
        · exact Or.inl (List.mem_cons_of_mem _ h1)
      · rw [if_neg h] at hp
        rcases List.mem_cons.mp hp with h1 | h1
        · exact Or.inl (by rw [h1]; exact List.mem_cons_self _ _)
        · rcases ih k v p h1 with h2 | h2
          · exact Or.inl (List.mem_cons_of_mem _ h2)
          · exact Or.inr h2

theorem runOps_emit_origin (ign : String → Bool) :
    ∀ (ops : List WatchOp) (s : WatcherState) (c : FsChangeEvent),
      c ∈ (runOps ign s ops).2 →
      (∃ p, (p, c) ∈ s.changeBuffer) ∨
      (∃ e now, WatchOp.raw e now ∈ ops ∧ c = mkChange e now) := by
  intro ops
  induction ops with
  | nil => intro s c hc; simp [runOps] at hc
  | cons op rest ih =>
      intro s c hc
      simp only [runOps, List.mem_append] at hc
      rcases hc with hc | hc
      · cases op with
        | raw e now => simp [applyOp] at hc
        | pauseOp => simp [applyOp] at hc
        | resumeOp => simp [applyOp] at hc
        | flushFire =>
            simp only [applyOp] at hc
            unfold flushChanges at hc
            by_cases h0 : s.changeBuffer.length = 0
            · rw [if_pos h0] at hc
              simp at hc
            · rw [if_neg h0] at hc
              by_cases hp : s.isPaused = true
              · rw [if_pos hp] at hc
                simp at hc
              · rw [if_neg hp] at hc
                rcases List.mem_map.mp hc with ⟨pp, hmem, heq⟩
                refine Or.inl ⟨pp.1, ?_⟩
                rw [← heq]
                simpa using hmem
      · have hrec := ih (applyOp ign s op).1 c hc
        rcases hrec with ⟨p, hpmem⟩ | ⟨e, now, hin, hceq⟩
        · cases op with
          | raw e now =>
              simp only [applyOp] at hpmem
              unfold handleFileChange at hpmem
              by_cases hb1 : s.isPaused = true
              · rw [if_pos hb1] at hpmem
                exact Or.inl ⟨p, hpmem⟩
              · rw [if_neg hb1] at hpmem
                by_cases hb2 : ign e.name = true
                · rw [if_pos hb2] at hpmem
                  exact Or.inl ⟨p, hpmem⟩
                · rw [if_neg hb2] at hpmem
                  rcases bufSet_mem _ _ _ _ hpmem with h3 | h3
                  · exact Or.inl ⟨p, h3⟩
                  · have hcm : c = mkChange e now := congrArg Prod.snd h3
                    exact Or.inr ⟨e, now, List.mem_cons_self _ _, hcm⟩
          | flushFire =>
              simp only [applyOp] at hpmem
              unfold flushChanges at hpmem
              by_cases h0 : s.changeBuffer.length = 0
              · rw [if_pos h0] at hpmem
                exact Or.inl ⟨p, hpmem⟩
              · rw [if_neg h0] at hpmem
                by_cases hp : s.isPaused = true
                · rw [if_pos hp] at hpmem
                  exact absurd hpmem (List.not_mem_nil _)
                · rw [if_neg hp] at hpmem
                  exact absurd hpmem (List.not_mem_nil _)
          | pauseOp =>
              simp only [applyOp] at hpmem
              unfold pause at hpmem
              by_cases hb1 : s.isPaused = true
              · rw [if_pos hb1] at hpmem
                exact Or.inl ⟨p, hpmem⟩
              · rw [if_neg hb1] at hpmem
                exact absurd hpmem (List.not_mem_nil _)
          | resumeOp =>
              simp only [applyOp] at hpmem
              unfold resume at hpmem
              by_cases hb1 : s.isPaused = true
              · rw [if_pos hb1] at hpmem
                exact absurd hpmem (List.not_mem_nil _)
              · rw [if_neg hb1] at hpmem
                exact Or.inl ⟨p, hpmem⟩
        · exact Or.inr ⟨e, now, List.mem_cons_of_mem _ hin, hceq⟩

/- ## Claim theorem: watcher pause/resume (C10) -/

/-- C10: once `pause()` is called on a running watcher, the pending flush
timer and the whole per-path debounce buffer are discarded; no filesystem
change event is emitted by any sequence of raw events, timer firings or
repeated pauses until `resume()`; `resume()` clears the buffer again; and
every change emitted after the resume originates from a raw event classified
after the resume — no raw event classified before the pause is ever
emitted. -/
theorem watcher_pause_drops_and_silences (ign : String → Bool) (s : WatcherState)
    (ops1 ops2 : List WatchOp)
    (hnp : s.isPaused = false)
    (h1 : ∀ o ∈ ops1, o ≠ WatchOp.resumeOp) :
    (pause s).changeBuffer = [] ∧
    (pause s).flushScheduled = false ∧
    (pause s).isPaused = true ∧
    (runOps ign (pause s) ops1).2 = [] ∧
    (resume (runOps ign (pause s) ops1).1).changeBuffer = [] ∧
    (∀ c ∈ (runOps ign (resume (runOps ign (pause s) ops1).1) ops2).2,
      ∃ e now, WatchOp.raw e now ∈ ops2 ∧ c = mkChange e now) := by
  have hp1 : (pause s).changeBuffer = [] := by simp [pause, hnp]
  have hp2 : (pause s).flushScheduled = false := by simp [pause, hnp]
  have hp3 : (pause s).isPaused = true := by simp [pause, hnp]
  have hrun := runOps_paused_silent ign ops1 (pause s) h1 hp3 hp1
  have hres : (resume (runOps ign (pause s) ops1).1).changeBuffer = [] := by
    unfold resume
    rw [if_pos hrun.2.1]
  refine ⟨hp1, hp2, hp3, hrun.1, hres, ?_⟩
  intro c hc
  rcases runOps_emit_origin ign ops2 _ c hc with ⟨p, hpm⟩ | horig
  · rw [hres] at hpm
    exact absurd hpm (List.not_mem_nil _)
  · exact horig

def ignNone : String → Bool := fun _ => false

def rawW : RawEvent := ⟨"WRITE", "src/main.ts"⟩

def rawC : RawEvent := ⟨"CREATE", "src/new.ts"⟩

def watcherSample : WatcherState :=
  ⟨[("src/main.ts", mkChange rawW 1)], true, false⟩

/-- Witness for `watcher_pause_drops_and_silences`: a watcher with one
buffered change and a pending flush; after pause, a raw event and a timer
firing emit nothing, and resume leaves an empty buffer. -/
theorem watcher_pause_w :
    (runOps ignNone (pause watcherSample)
        [WatchOp.raw rawW 2, WatchOp.flushFire]).2 = [] ∧
    (resume (runOps ignNone (pause watcherSample)
        [WatchOp.raw rawW 2, WatchOp.flushFire]).1).changeBuffer = [] :=
  ⟨(watcher_pause_drops_and_silences ignNone watcherSample
      [WatchOp.raw rawW 2, WatchOp.flushFire]
      [WatchOp.raw rawC 7, WatchOp.flushFire] rfl (by decide)).2.2.2.1,
   (watcher_pause_drops_and_silences ignNone watcherSample
      [WatchOp.raw rawW 2, WatchOp.flushFire]
      [WatchOp.raw rawC 7, WatchOp.flushFire] rfl (by decide)).2.2.2.2.1⟩

end Maru
